import Mathlib

/-!
Verification development for the avos-bot graph-RAG core.

Shallow embedding of:
* `HeaderBasedChunker.chunk_content`   (helper/app/confluence_loader.py)
* `EnhancedGraphRAG._cosine_similarity`, `_get_node_relevance_score`,
  `_traverse_graph`, `search`          (helper/app/graph_rag_enhanced.py)

Conventions used by the embedding:
* Python floats are modelled as exact numbers: the cosine helper (which
  takes a real square root) is modelled over `ℝ`; everywhere else the
  numeric values are modelled over `ℚ`.  Where traversal / scoring call
  `self._cosine_similarity`, the similarity function is passed in as an
  explicit parameter `sim : List ℚ → List ℚ → ℚ` (dependency injection of
  the one float-valued helper), so that the rest of the code stays
  executable.
* Python `dict` / Mongo documents become records with `Option` fields for
  keys that may be absent; Python truthiness of strings/lists is modelled
  explicitly (`optTruthy`, `isEmpty` checks).
* The unbounded `while` loop of `_traverse_graph` is modelled with an
  explicit fuel parameter; running out of fuel returns the current state,
  and all theorems hold for every fuel value.
-/

namespace AvosBot

/-! ### Python string primitives

`pyStrip`/`pyLower` model `str.strip()` / `str.lower()`, and
`pyContains hay needle` models Python's substring test `needle in hay`. -/

def stripChars (l : List Char) : List Char :=
  ((l.dropWhile Char.isWhitespace).reverse.dropWhile Char.isWhitespace).reverse

def pyStrip (s : String) : String := String.mk (stripChars s.data)

def pyLower (s : String) : String := String.mk (s.data.map Char.toLower)

def pyContains (hay needle : String) : Bool :=
  decide (needle.data <:+: hay.data)

/-- Truthiness of a Python string: `bool(s) = (s ≠ "")`. -/
def strTruthy (s : String) : Bool := s ≠ ""

/-- `doc.get(k)` for a string field, collapsed through Python truthiness:
`optTruthy o = some s` iff the field is present with a non-empty value. -/
def optTruthy : Option String → Option String
  | none => none
  | some s => if s = "" then none else some s

/-! ### VectorMath: `_cosine_similarity` (graph_rag_enhanced.py lines 54-59)

```python
dot_product = sum(a * b for a, b in zip(vec1, vec2))
norm1 = sum(a * a for a in vec1) ** 0.5
norm2 = sum(b * b for b in vec2) ** 0.5
return dot_product / (norm1 * norm2) if norm1 * norm2 > 0 else 0
```
Modelled over `ℝ`, with `x ** 0.5` as `Real.sqrt` (the argument is a sum
of squares, hence nonnegative). -/

def dotProduct (v1 v2 : List ℝ) : ℝ :=
  ((v1.zip v2).map (fun p => p.1 * p.2)).sum

def sumSquares (v : List ℝ) : ℝ := (v.map (fun a => a * a)).sum

noncomputable def cosine_similarity (v1 v2 : List ℝ) : ℝ :=
  let norm1 := Real.sqrt (sumSquares v1)
  let norm2 := Real.sqrt (sumSquares v2)
  if norm1 * norm2 > 0 then dotProduct v1 v2 / (norm1 * norm2) else 0

/-! ### HierarchicalChunker: `chunk_content` (confluence_loader.py lines 242-335)

The input HTML is modelled as the ordered list of elements found by
`soup.find_all([...])`: each element is either a heading tag `h1..h6`
(carrying its text) or a non-heading content block (carrying the text
`_extract_text_with_code` would return for it). -/

inductive Block where
  | heading (lvl : Nat) (text : String)
  | body (text : String)
deriving DecidableEq

def Block.isHead : Block → Bool
  | .heading _ _ => true
  | .body _ => false

structure HeaderSlot where
  text : String
  chunkIndex : Nat
deriving DecidableEq

structure HeaderPathEntry where
  level : Nat
  text : String
  chunk_id : String
deriving DecidableEq

structure Chunk where
  header : String
  level : Nat
  parent_chunk_id : Option String
  parent_header : Option String
  header_path : List HeaderPathEntry
  depth : Nat
  children : List String
  content : String
  full_context : String
deriving DecidableEq

/-- An open chunk: the dict built at a heading, before `content` /
`full_context` are filled in when the chunk is closed. -/
structure OpenChunk where
  header : String
  level : Nat
  parent_chunk_id : Option String
  parent_header : Option String
  header_path : List HeaderPathEntry
  depth : Nat
deriving DecidableEq

structure ChunkState where
  headers : List (Option HeaderSlot)
  current : Option OpenChunk
  buf : List String
  chunks : List Chunk
deriving DecidableEq

def chunkIdOf (pid : String) (i : Nat) : String :=
  pid ++ "-chunk-" ++ toString i

/-- Closing a chunk: set `content` to the accumulated buffer joined with
newlines and `full_context` to `header\n====\ncontent`. -/
def closeChunk (oc : OpenChunk) (buf : List String) : Chunk :=
  let content := String.intercalate "\n" buf
  { header := oc.header, level := oc.level,
    parent_chunk_id := oc.parent_chunk_id, parent_header := oc.parent_header,
    header_path := oc.header_path, depth := oc.depth, children := [],
    content := content,
    full_context :=
      oc.header ++ "\n" ++ String.mk (List.replicate oc.header.length '=')
        ++ "\n" ++ content }

/-- `current_headers[header_level] = slot` followed by clearing all slots
at levels `> header_level`. -/
def setHeaderSlot (hs : List (Option HeaderSlot)) (l : Nat) (slot : HeaderSlot) :
    List (Option HeaderSlot) :=
  hs.enum.map (fun p =>
    if p.1 = l then some slot else if l < p.1 then none else p.2)

/-- The parent scan: `for i in range(header_level - 1, -1, -1)` stopping at
the first non-empty slot; the slot yields a parent only if its recorded
chunk index already lies inside `chunks` (`len(chunks) > chunk_index`).
The argument is the number of slots still to scan (call with
`header_level`, so the first slot inspected is `header_level - 1`). -/
def scanParent (hs : List (Option HeaderSlot)) (nChunks : Nat) (pid : String) :
    Nat → Option String × Option String
  | 0 => (none, none)
  | i + 1 =>
    match hs.getD i none with
    | some s =>
        if nChunks > s.chunkIndex
        then (some (chunkIdOf pid s.chunkIndex), some s.text)
        else (none, none)
    | none => scanParent hs nChunks pid i

/-- `header_path`: all non-empty slots strictly below the new level, in
ascending level order. -/
def buildHeaderPath (hs : List (Option HeaderSlot)) (pid : String) (l : Nat) :
    List HeaderPathEntry :=
  (List.range l).filterMap (fun i =>
    (hs.getD i none).map (fun s =>
      { level := i + 1, text := s.text, chunk_id := chunkIdOf pid s.chunkIndex }))

/-- One iteration of the `for element in all_elements` loop. -/
def stepBlock (pid : String) (st : ChunkState) (b : Block) : ChunkState :=
  match b with
  | .body t =>
      match st.current with
      | none => st
      | some _ =>
          if (pyStrip t).data.isEmpty then st else { st with buf := st.buf ++ [t] }
  | .heading lvl txt =>
      let st1 :=
        match st.current with
        | some oc =>
            if st.buf.isEmpty then st
            else { st with chunks := st.chunks ++ [closeChunk oc st.buf] }
        | none => st
      let headerLevel := lvl - 1
      let headerText := pyStrip txt
      let hs := setHeaderSlot st1.headers headerLevel
        { text := headerText, chunkIndex := st1.chunks.length }
      let pp := scanParent hs st1.chunks.length pid headerLevel
      let hpath := buildHeaderPath hs pid headerLevel
      { headers := hs,
        current := some
          { header := headerText, level := headerLevel + 1,
            parent_chunk_id := pp.1, parent_header := pp.2,
            header_path := hpath, depth := headerLevel },
        buf := [],
        chunks := st1.chunks }

/-- Replace the element at index `i` (no-op if out of range). -/
def listModify (l : List Chunk) (i : Nat) (f : Chunk → Chunk) : List Chunk :=
  l.enum.map (fun p => if p.1 = i then f p.2 else p.2)

/-- The post-pass filling in `children` from `parent_chunk_id`. -/
def addChildren (pid : String) (chunks : List Chunk) : List Chunk :=
  let chunkMap := (List.range chunks.length).map (fun i => (chunkIdOf pid i, i))
  chunks.enum.foldl (fun acc p =>
    match p.2.parent_chunk_id with
    | some par =>
        match chunkMap.find? (fun e => e.1 == par) with
        | some e =>
            listModify acc e.2 (fun c => { c with children := c.children ++ [chunkIdOf pid p.1] })
        | none => acc
    | none => acc) chunks

/-- "Add the last chunk" (lines 318-322). -/
def finishChunks (st : ChunkState) : List Chunk :=
  match st.current with
  | some oc => if st.buf.isEmpty then st.chunks else st.chunks ++ [closeChunk oc st.buf]
  | none => st.chunks

def chunk_content (pid : String) (blocks : List Block) : List Chunk :=
  let st := blocks.foldl (stepBlock pid) ⟨List.replicate 6 none, none, [], []⟩
  addChildren pid (finishChunks st)

/-- Reference count used to state claim C4: the number of headings whose
run of non-heading blocks (up to the next heading or the end of input)
contains at least one block with non-whitespace text. -/
def hasBodyLead (blocks : List Block) : Bool :=
  (blocks.takeWhile (fun b => !b.isHead)).any (fun b =>
    match b with
    | .body t => !(pyStrip t).data.isEmpty
    | .heading _ _ => false)

def headingsWithBody : List Block → Nat
  | [] => 0
  | .body _ :: rest => headingsWithBody rest
  | .heading _ _ :: rest =>
      (if hasBodyLead rest then 1 else 0) + headingsWithBody rest

/-! ### Store documents

The lightweight / full Mongo documents used by `_traverse_graph`,
`_get_node_relevance_score` and `search`.  `Option` marks fields that may
be absent from a document. -/

structure Doc where
  id : String
  parent_chunk_id : Option String
  children : List String
  header : Option String
  page_id : Option String
  level : Option Int
  embedding : Option (List ℚ)
  content : Option String
  full_context : Option String
deriving DecidableEq

def docMap (store : List Doc) (nid : String) : Option Doc :=
  store.find? (fun d => d.id == nid)

/-- `parent_to_children` of `_traverse_graph`: ids of the docs whose
(truthy) `parent_chunk_id` equals `p`, in store order.  The dict has no
key for the falsy id `""`. -/
def childrenOf (store : List Doc) (p : String) : List String :=
  if p = "" then []
  else (store.filter (fun d => d.parent_chunk_id == some p)).map (·.id)

/-- `page_to_chunks`: ids of the docs on (truthy) page `pg`, in store
order. -/
def pageChunksOf (store : List Doc) (pg : String) : List String :=
  if pg = "" then []
  else (store.filter (fun d => d.page_id == some pg)).map (·.id)

/-! ### RelevanceScorer: `_get_node_relevance_score` (lines 101-156) -/

/-- `path_boost`: `if path:` is false for both `None` and `[]`. -/
def path_boost (path : Option (List String)) : ℚ :=
  match path with
  | none => 1
  | some p =>
      if p.isEmpty then 1
      else
        let base : ℚ :=
          if p.length = 1 then 1.3 else if p.length = 2 then 1.15 else 1.05
        let b1 := if p.contains "parent" then base * 1.2 else base
        if p.contains "child" then b1 * 1.3 else b1

/-- `topic_boost`: `1 + 0.1 × (number of topics appearing case-insensitively
in header + " " + content)`, where content is
`doc.get("full_context", "") or doc.get("content", "")`. -/
def topic_boost (d : Doc) (topics : List String) : ℚ :=
  let fc := d.full_context.getD ""
  let content := if fc = "" then d.content.getD "" else fc
  let hay := pyLower (d.header.getD "" ++ " " ++ content)
  let topicMatches := (topics.filter (fun t => pyContains hay (pyLower t))).length
  if topicMatches > 0 then 1 + (topicMatches : ℚ) * 0.1 else 1

/-- `level_boost`: h1 ×1.3, h2 ×1.2, otherwise ×1.0 (`doc.get("level", 0)`). -/
def level_boost (d : Doc) : ℚ :=
  let lvl := d.level.getD 0
  if lvl = 1 then 1.3 else if lvl = 2 then 1.2 else 1

def get_node_relevance_score (sim : List ℚ → List ℚ → ℚ) (store : List Doc)
    (node_id : String) (query_embedding : List ℚ) (topics : List String)
    (path : Option (List String)) : ℚ :=
  match docMap store node_id with
  | none => 0
  | some d =>
      match d.embedding with
      | none => 0
      | some e =>
          sim query_embedding e * path_boost path * topic_boost d topics * level_boost d

/-! ### GraphTraversalEngine: `_traverse_graph` (lines 158-301) -/

/-- The `relationship_counts` dict.  Note its keys: there is no
`"same_level"` key; the `"semantic"` counter is bumped by the
same-page/same-level strategy and the `"topic"` counter by the
semantic-jump strategy (lines 271 and 294 of the source). -/
structure RelCounts where
  parent : Nat
  child : Nat
  sibling : Nat
  semantic : Nat
  topic : Nat
deriving DecidableEq

def RelCounts.zero : RelCounts := ⟨0, 0, 0, 0, 0⟩

/-- The hop kind of one discovery step, pairing the path label recorded in
`discovery_paths` with the counter the source bumps for it. -/
inductive RelTag where
  | parent | child | sibling | same_level | semantic
deriving DecidableEq

def RelTag.label : RelTag → String
  | .parent => "parent"
  | .child => "child"
  | .sibling => "sibling"
  | .same_level => "same_level"
  | .semantic => "semantic"

def RelTag.bump : RelTag → RelCounts → RelCounts
  | .parent, c => { c with parent := c.parent + 1 }
  | .child, c => { c with child := c.child + 1 }
  | .sibling, c => { c with sibling := c.sibling + 1 }
  | .same_level, c => { c with semantic := c.semantic + 1 }
  | .semantic, c => { c with topic := c.topic + 1 }

/-- `discovery_paths` is a Python dict: an association list with
insert-or-overwrite update and first-match lookup. -/
def pathsGet (ps : List (String × List String)) (k : String) :
    Option (List String) :=
  (ps.find? (fun e => e.1 == k)).map (·.2)

def pathsSet (ps : List (String × List String)) (k : String) (v : List String) :
    List (String × List String) :=
  if ps.any (fun e => e.1 == k)
  then ps.map (fun e => if e.1 == k then (k, v) else e)
  else ps ++ [(k, v)]

/-- Traversal state: `visited` is the Python set kept as its insertion
order (it is duplicate-free by construction), `worklist` is
`nodes_to_explore`. -/
structure TState where
  visited : List String
  worklist : List (String × Nat)
  paths : List (String × List String)
  counts : RelCounts
deriving DecidableEq

/-- Mark a node visited, enqueue it one level deeper, record its discovery
path `discovery_paths.get(current, []) + [label]`, bump the tag's counter. -/
def addNode (st : TState) (cur : String) (dep : Nat) (nid : String)
    (tag : RelTag) : TState :=
  { visited := st.visited ++ [nid],
    worklist := st.worklist ++ [(nid, dep + 1)],
    paths := pathsSet st.paths nid ((pathsGet st.paths cur).getD [] ++ [tag.label]),
    counts := tag.bump st.counts }

/-- Strategy 1: parent traversal. -/
def parentStrategy (cur : String) (dep : Nat) (doc : Doc) (st : TState) : TState :=
  match optTruthy doc.parent_chunk_id with
  | none => st
  | some p => if p ∈ st.visited then st else addNode st cur dep p .parent

/-- Strategy 2: children traversal. -/
def childStrategy (store : List Doc) (cur : String) (dep : Nat) (st : TState) :
    TState :=
  (childrenOf store cur).foldl (fun s cid =>
    if cid ∈ s.visited then s else addNode s cur dep cid .child) st

/-- Strategy 3: sibling traversal (same parent). -/
def siblingStrategy (store : List Doc) (cur : String) (dep : Nat) (doc : Doc)
    (st : TState) : TState :=
  match optTruthy doc.parent_chunk_id with
  | none => st
  | some p =>
      (childrenOf store p).foldl (fun s sid =>
        if sid = cur then s
        else if sid ∈ s.visited then s
        else addNode s cur dep sid .sibling) st

/-- Strategy 4: same page, same level (hop label `"same_level"`, counted
under the `"semantic"` key). -/
def sameLevelStrategy (store : List Doc) (cur : String) (dep : Nat) (doc : Doc)
    (st : TState) : TState :=
  match optTruthy doc.page_id with
  | none => st
  | some pg =>
      let lvl : Int := doc.level.getD 0
      if 0 < lvl then
        (pageChunksOf store pg).foldl (fun s cid =>
          if cid = cur then s
          else if cid ∈ s.visited then s
          else
            match docMap store cid with
            | some cd => if cd.level = some lvl then addNode s cur dep cid .same_level else s
            | none => s) st
      else st

/-- Stable descending sort by the second component, as Python's
`list.sort(key=..., reverse=True)` (equal keys keep their order). -/
def insertDesc (x : String × ℚ) : List (String × ℚ) → List (String × ℚ)
  | [] => [x]
  | y :: ys => if x.2 ≤ y.2 then y :: insertDesc x ys else x :: y :: ys

def sortDesc : List (String × ℚ) → List (String × ℚ)
  | [] => []
  | x :: xs => insertDesc x (sortDesc xs)

/-- Strategy 5: semantic jumps (hop label `"semantic"`, counted under the
`"topic"` key); only when `len(visited) % 3 == 0 and depth < 2`. -/
def semanticStrategy (sim : List ℚ → List ℚ → ℚ) (store : List Doc)
    (cur : String) (dep : Nat) (doc : Doc) (st : TState) : TState :=
  if st.visited.length % 3 = 0 ∧ dep < 2 then
    match doc.embedding with
    | none => st
    | some emb =>
        if emb.isEmpty then st
        else
          let neighbors :=
            ((store.filter (fun d => !(st.visited.contains d.id) && d.embedding.isSome)).map
              (fun d => (d.id, sim emb (d.embedding.getD [])))).filter
              (fun p => decide ((0.85 : ℚ) < p.2))
          ((sortDesc neighbors).take 2).foldl
            (fun s p => addNode s cur dep p.1 .semantic) st
  else st

/-- The body of one worklist iteration after the pop: the depth guard, the
`doc_map` guard, then the five strategies in order. -/
def stepNode (sim : List ℚ → List ℚ → ℚ) (store : List Doc) (maxDepth : Nat)
    (cur : String) (dep : Nat) (st : TState) : TState :=
  if maxDepth ≤ dep then st
  else
    match docMap store cur with
    | none => st
    | some doc =>
        semanticStrategy sim store cur dep doc
          (sameLevelStrategy store cur dep doc
            (siblingStrategy store cur dep doc
              (childStrategy store cur dep
                (parentStrategy cur dep doc st))))

/-- `while nodes_to_explore and len(visited) < max_nodes`, with fuel. -/
def traverseLoop (sim : List ℚ → List ℚ → ℚ) (store : List Doc)
    (maxNodes maxDepth : Nat) : Nat → TState → TState
  | 0, st => st
  | fuel + 1, st =>
      match st.worklist with
      | [] => st
      | (cur, dep) :: rest =>
          if st.visited.length < maxNodes then
            traverseLoop sim store maxNodes maxDepth fuel
              (stepNode sim store maxDepth cur dep { st with worklist := rest })
          else st

/-- `visited = set(seed_nodes)` kept in first-insertion order. -/
def seedVisited (seeds : List String) : List String :=
  seeds.foldl (fun v s => if s ∈ v then v else v ++ [s]) []

/-- `discovery_paths = {node: ["seed"] for node in seed_nodes}`. -/
def seedPaths (seeds : List String) : List (String × List String) :=
  seeds.foldl (fun ps s => pathsSet ps s ["seed"]) []

structure TravResult where
  visited_nodes : List String
  discovery_paths : List (String × List String)
  relationship_counts : RelCounts
deriving DecidableEq

def traverse_graph (sim : List ℚ → List ℚ → ℚ) (store : List Doc)
    (seed_nodes : List String) (max_nodes max_depth fuel : Nat) : TravResult :=
  let st := traverseLoop sim store max_nodes max_depth fuel
    { visited := seedVisited seed_nodes,
      worklist := seed_nodes.map (fun s => (s, 0)),
      paths := seedPaths seed_nodes,
      counts := RelCounts.zero }
  { visited_nodes := st.visited,
    discovery_paths := st.paths,
    relationship_counts := st.counts }

/-! ### GraphRetriever: `search` (lines 303-417)

The query embedding and extracted topics come from external services and
are passed in; the MongoDB collection is the `store` list. -/

structure SearchResult where
  documents : List String
  scores : List ℚ
deriving DecidableEq

/-- `_score_documents`: skip docs without a truthy embedding, score the
rest, sort descending by similarity. -/
def score_documents (sim : List ℚ → List ℚ → ℚ) (query_embedding : List ℚ)
    (docs : List Doc) : List (String × ℚ) :=
  sortDesc (docs.filterMap (fun d =>
    match d.embedding with
    | some e => if e.isEmpty then none else some (d.id, sim query_embedding e)
    | none => none))

def search (sim : List ℚ → List ℚ → ℚ) (store : List Doc)
    (query_embedding : List ℚ) (topics : List String)
    (n_seed_results n_total_results max_traversal_depth fuel : Nat) :
    SearchResult :=
  let all_docs := store.filter (fun d => d.embedding.isSome)
  if all_docs.isEmpty then
    { documents := ["No information found in the database."], scores := [0] }
  else
    let scored_docs := score_documents sim query_embedding all_docs
    let seed_node_ids := (scored_docs.take n_seed_results).map (·.1)
    let tr := traverse_graph sim store seed_node_ids
      (n_total_results * 3) max_traversal_depth fuel
    let final_scores := sortDesc (tr.visited_nodes.map (fun nid =>
      (nid, get_node_relevance_score sim store nid query_embedding topics

        (pathsGet tr.discovery_paths nid))))
    (final_scores.take n_total_results).foldl (fun acc p =>
      match docMap store p.1 with
      | some d =>
          { documents := acc.documents ++ [d.full_context.getD "No context available"],
            scores := acc.scores ++ [p.2] }
      | none => acc) ⟨[], []⟩

/-! ### Definitions used to state the verified properties -/

/-- Contribution of the currently open chunk to the final number of chunks,
given the blocks still to be consumed (used in the chunk-count invariant). -/
def openContrib (st : ChunkState) (blocks : List Block) : Nat :=
  match st.current with
  | some _ => if !st.buf.isEmpty || hasBodyLead blocks then 1 else 0
  | none => 0

/-- Number of recorded discovery hops whose label is `l`: entries of
`discovery_paths` whose path ends with `l` (each non-seed node is recorded
exactly once, with its hop label last). -/
def hopCount (ps : List (String × List String)) (l : String) : Nat :=
  (ps.filter (fun e => e.2.getLast? == some l)).length

def docIds (store : List Doc) : List String := store.map (·.id)

/-- The (truthy) parent ids referenced by the snapshot. -/
def refIds (store : List Doc) : List String :=
  store.filterMap (fun d => optTruthy d.parent_chunk_id)

/-- Every id the traversal can ever add to `visited` beyond the seeds. -/
def allIds (store : List Doc) : List String := docIds store ++ refIds store

/-- Traversal-state well-formedness: `discovery_paths` has exactly the
visited ids as keys (in insertion order), `visited` is duplicate-free, and
each `relationship_counts` counter equals the number of recorded hops with
the label that bumps it (`same_level` hops bump the `semantic` key,
`semantic` hops bump the `topic` key). -/
def Inv (st : TState) : Prop :=
  st.paths.map Prod.fst = st.visited ∧ st.visited.Nodup ∧
  st.counts.parent = hopCount st.paths "parent" ∧
  st.counts.child = hopCount st.paths "child" ∧
  st.counts.sibling = hopCount st.paths "sibling" ∧
  st.counts.semantic = hopCount st.paths "same_level" ∧
  st.counts.topic = hopCount st.paths "semantic"

/-- `st'` extends `st`: the visited list only ever grows by appending. -/
def extVis (st st' : TState) : Prop := ∃ r, st'.visited = st.visited ++ r

/-! ### Concrete instances used for counterexamples and witnesses -/

def simZero : List ℚ → List ℚ → ℚ := fun _ _ => 0

def simOne : List ℚ → List ℚ → ℚ := fun _ _ => 1

/-- A store document with only an id and an optional parent pointer. -/
def leafDoc (i : String) (par : Option String) : Doc :=
  { id := i, parent_chunk_id := par, children := [], header := none,
    page_id := none, level := none, embedding := none, content := none,
    full_context := none }

/-- A store document with a page id and a heading level. -/
def pageDoc (i pg : String) (lv : Int) : Doc :=
  { id := i, parent_chunk_id := none, children := [], header := none,
    page_id := some pg, level := some lv, embedding := none, content := none,
    full_context := none }

/-- Seed `A` with three children and `max_nodes = 2` overshoots the cap. -/
def c1Store : List Doc :=
  [leafDoc "A" none, leafDoc "B" (some "A"), leafDoc "C" (some "A"),
   leafDoc "D" (some "A")]

/-- One node `n` carrying an embedding, for scoring a seed node. -/
def c2Doc : Doc :=
  { id := "n", parent_chunk_id := none, children := [], header := none,
    page_id := none, level := none, embedding := some [1], content := none,
    full_context := none }

def c2Store : List Doc := [c2Doc]

/-- The C5 scenario: root `P`; `A` and `B` children of `P`; `C` child of `A`. -/
def c5Store : List Doc :=
  [leafDoc "P" none, leafDoc "A" (some "P"), leafDoc "B" (some "P"),
   leafDoc "C" (some "A")]

/-- Two nodes on the same page at the same level. -/
def c6Store : List Doc := [pageDoc "X" "pg" 2, pageDoc "Y" "pg" 2]

/-- A similarity function that reads off the head of the query embedding. -/
def simHead : List ℚ → List ℚ → ℚ := fun q _ => q.headD 0

/-- A store with no documents carrying an embedding. -/
def noEmbStore : List Doc := [leafDoc "A" none]

/-- A traversal state holding one visited seed `s`. -/
def oneSeedState : TState := ⟨["s"], [], [("s", ["seed"])], RelCounts.zero⟩

/-! ## Helper lemmas -/

theorem dotProduct_self (v : List ℝ) : dotProduct v v = sumSquares v := by
  induction v with
  | nil => rfl
  | cons a t ih =>
      simp only [dotProduct, sumSquares, List.zip_cons_cons, List.map_cons,
        List.sum_cons] at ih ⊢
      rw [ih]

theorem sumSquares_nonneg (v : List ℝ) : 0 ≤ sumSquares v := by
  induction v with
  | nil => simp [sumSquares]
  | cons a t ih =>
      simp only [sumSquares, List.map_cons, List.sum_cons] at ih ⊢
      nlinarith [mul_self_nonneg a]

theorem sumSquares_pos (v : List ℝ) (h : ∃ x ∈ v, x ≠ 0) : 0 < sumSquares v := by
  induction v with
  | nil => simp at h
  | cons a t ih =>
      have ht : 0 ≤ (List.map (fun a => a * a) t).sum := sumSquares_nonneg t
      simp only [sumSquares, List.map_cons, List.sum_cons]
      rcases h with ⟨x, hx, hxne⟩
      rcases List.mem_cons.mp hx with h1 | h2
      · subst h1
        nlinarith [mul_self_pos.mpr hxne]
      · have hpos : 0 < (List.map (fun a => a * a) t).sum := ih ⟨x, h2, hxne⟩
        nlinarith [mul_self_nonneg a]

theorem sumSquares_eq_zero (v : List ℝ) (h : ∀ x ∈ v, x = 0) : sumSquares v = 0 := by
  induction v with
  | nil => rfl
  | cons a t ih =>
      have ht : (List.map (fun a => a * a) t).sum = 0 :=
        ih (fun x hx => h x (List.mem_cons_of_mem a hx))
      simp only [sumSquares, List.map_cons, List.sum_cons]
      rw [h a (List.mem_cons_self a t), ht]
      simp

theorem path_boost_pos (path : Option (List String)) : 0 < path_boost path := by
  cases path with
  | none => norm_num [path_boost]
  | some p =>
      simp only [path_boost]
      split_ifs <;> norm_num

theorem topic_boost_pos (d : Doc) (topics : List String) : 0 < topic_boost d topics := by
  simp only [topic_boost]
  split_ifs <;> positivity

theorem level_boost_pos (d : Doc) : 0 < level_boost d := by
  simp only [level_boost]
  split_ifs <;> norm_num

theorem path_boost_seed : path_boost (some ["seed"]) = 1.3 := by
  simp [path_boost]

theorem stepBlock_body (pid : String) (st : ChunkState) (t : String) (oc : OpenChunk)
    (hcur : st.current = some oc) (h : (pyStrip t).data.isEmpty = false) :
    stepBlock pid st (Block.body t) = { st with buf := st.buf ++ [t] } := by
  simp only [stepBlock, hcur, h, Bool.false_eq_true, if_false]

/-- The children back-fill pass on a four-chunk page whose parent pointers
have the shape produced by `H1 H2 H2 H3`. -/
theorem addChildren_spec4 (k1 k2 k3 k4 : Chunk)
    (h1 : k1.parent_chunk_id = none)
    (h2 : k2.parent_chunk_id = some "p-chunk-0")
    (h3 : k3.parent_chunk_id = some "p-chunk-0")
    (h4 : k4.parent_chunk_id = some "p-chunk-2") :
    addChildren "p" [k1, k2, k3, k4] =
      [{ k1 with children := (k1.children ++ ["p-chunk-1"]) ++ ["p-chunk-2"] },
       k2, { k3 with children := k3.children ++ ["p-chunk-3"] }, k4] := by
  have ha : chunkIdOf "p" 1 = "p-chunk-1" := rfl
  have hb : chunkIdOf "p" 2 = "p-chunk-2" := rfl
  have hc : chunkIdOf "p" 3 = "p-chunk-3" := rfl
  have t00 : (chunkIdOf "p" 0 == "p-chunk-0") = true := rfl
  have t22 : (chunkIdOf "p" 2 == "p-chunk-2") = true := rfl
  have f02 : (chunkIdOf "p" 0 == "p-chunk-2") = false := rfl
  have f12 : (chunkIdOf "p" 1 == "p-chunk-2") = false := rfl
  simp [addChildren, listModify, List.enum, List.enumFrom, h1, h2, h3, h4,
    ha, hb, hc, t00, t22, f02, f12, List.find?]

/-! ## Claim C10 -/

/-- C10: the cosine-similarity helper returns 1 on any nonzero vector paired
with itself, and 0 whenever the second vector is all-zero (zero magnitude is
defined as similarity 0, not an error). -/
theorem claim_C10 :
    (∀ v : List ℝ, (∃ x ∈ v, x ≠ 0) → cosine_similarity v v = 1) ∧
    (∀ v z : List ℝ, (∀ x ∈ z, x = 0) → cosine_similarity v z = 0) := by
  constructor
  · intro v hv
    have hpos : 0 < sumSquares v := sumSquares_pos v hv
    have hs : Real.sqrt (sumSquares v) * Real.sqrt (sumSquares v) = sumSquares v :=
      Real.mul_self_sqrt (le_of_lt hpos)
    simp only [cosine_similarity, hs]
    rw [if_pos (hs ▸ hpos), dotProduct_self, div_self (ne_of_gt hpos)]
  · intro v z hz
    have h0 : sumSquares z = 0 := sumSquares_eq_zero z hz
    simp only [cosine_similarity, h0, Real.sqrt_zero, mul_zero]
    rw [if_neg (lt_irrefl 0)]

/-- Witness for C10 at concrete vectors. -/
theorem claim_C10_witness :
    cosine_similarity [(1 : ℝ)] [(1 : ℝ)] = 1 ∧
    cosine_similarity [(1 : ℝ)] [(0 : ℝ)] = 0 :=
  ⟨claim_C10.1 [1] ⟨1, by simp, by norm_num⟩,
   claim_C10.2 [1] [0] (by intro x hx; simpa using hx)⟩

/-! ## Claim C9 -/

/-- C9: with the node, topics and discovery path fixed, the composite
relevance score is strictly increasing in the base similarity of the query
embedding against the node's embedding. -/
theorem claim_C9 (sim : List ℚ → List ℚ → ℚ) (store : List Doc) (node_id : String)
    (query1 query2 : List ℚ) (topics : List String) (path : Option (List String))
    (d : Doc) (e : List ℚ) (hd : docMap store node_id = some d)
    (he : d.embedding = some e) (hlt : sim query1 e < sim query2 e) :
    get_node_relevance_score sim store node_id query1 topics path <
      get_node_relevance_score sim store node_id query2 topics path := by
  simp only [get_node_relevance_score, hd, he]
  exact mul_lt_mul_of_pos_right
    (mul_lt_mul_of_pos_right
      (mul_lt_mul_of_pos_right hlt (path_boost_pos path))
      (topic_boost_pos d topics))
    (level_boost_pos d)

/-- Witness for C9: on the one-node store, query `[0]` scores strictly below
query `[1]` under the head-projection similarity. -/
theorem claim_C9_witness :
    docMap c2Store "n" = some c2Doc ∧ c2Doc.embedding = some [1] ∧
    simHead [0] [1] < simHead [1] [1] ∧
    get_node_relevance_score simHead c2Store "n" [0] [] none <
      get_node_relevance_score simHead c2Store "n" [1] [] none :=
  ⟨rfl, rfl, by norm_num [simHead],
   claim_C9 simHead c2Store "n" [0] [1] [] none c2Doc [1] rfl rfl
     (by norm_num [simHead])⟩

/-! ## Claim C2 -/

/-- C2 as stated is false: a node whose discovery path is exactly `["seed"]`
gets path boost 1.3 (the `len(path) == 1` branch), not 1.0; its score is
13/10 here instead of the claimed base × topic-boost × level-boost = 1. -/
theorem claim_C2_counterexample :
    get_node_relevance_score simOne c2Store "n" [1] [] (some ["seed"]) = 13 / 10 ∧
    get_node_relevance_score simOne c2Store "n" [1] [] (some ["seed"]) ≠
      simOne [1] [1] * topic_boost c2Doc [] * level_boost c2Doc := by
  have hval : get_node_relevance_score simOne c2Store "n" [1] [] (some ["seed"]) = 13 / 10 := by
    simp [get_node_relevance_score, docMap, c2Store, c2Doc, simOne, path_boost,
      topic_boost, level_boost]
    norm_num
  have hrhs : simOne [1] [1] * topic_boost c2Doc [] * level_boost c2Doc = 1 := by
    simp [simOne, topic_boost, level_boost, c2Doc]
  refine ⟨hval, ?_⟩
  rw [hval, hrhs]
  norm_num

/-- C2 amended: a node with discovery path exactly `["seed"]` gets path
boost 1.3, so its score is base similarity × 1.3 × topic-boost × level-boost. -/
theorem claim_C2 (sim : List ℚ → List ℚ → ℚ) (store : List Doc) (node_id : String)
    (query_embedding : List ℚ) (topics : List String) (d : Doc) (e : List ℚ)
    (hd : docMap store node_id = some d) (he : d.embedding = some e) :
    get_node_relevance_score sim store node_id query_embedding topics (some ["seed"]) =
      sim query_embedding e * 1.3 * topic_boost d topics * level_boost d := by
  simp only [get_node_relevance_score, hd, he, path_boost_seed]

/-- Witness for the amended C2 at the one-node store. -/
theorem claim_C2_witness :
    docMap c2Store "n" = some c2Doc ∧ c2Doc.embedding = some [1] ∧
    get_node_relevance_score simOne c2Store "n" [1] [] (some ["seed"]) =
      simOne [1] [1] * 1.3 * topic_boost c2Doc [] * level_boost c2Doc :=
  ⟨rfl, rfl, claim_C2 simOne c2Store "n" [1] [] c2Doc [1] rfl rfl⟩

/-! ## Claim C7 -/

/-- C7: a referenced id that is absent from the store snapshot is silently
skipped: popping it expands nothing (the traversal state is returned
unchanged), and scoring it yields 0.0; neither raises. -/
theorem claim_C7 :
    (∀ (sim : List ℚ → List ℚ → ℚ) (store : List Doc) (maxDepth : Nat)
        (cur : String) (dep : Nat) (st : TState),
        docMap store cur = none → stepNode sim store maxDepth cur dep st = st) ∧
    (∀ (sim : List ℚ → List ℚ → ℚ) (store : List Doc) (node_id : String)
        (query_embedding : List ℚ) (topics : List String)
        (path : Option (List String)),
        docMap store node_id = none →
          get_node_relevance_score sim store node_id query_embedding topics path = 0) := by
  constructor
  · intro sim store maxDepth cur dep st h
    unfold stepNode
    split_ifs with hdep
    · rfl
    · rw [h]
  · intro sim store node_id query_embedding topics path h
    unfold get_node_relevance_score
    rw [h]

/-- Witness for C7 on the empty store. -/
theorem claim_C7_witness :
    docMap [] "x" = none ∧
    stepNode simZero [] 3 "x" 0 oneSeedState = oneSeedState ∧
    get_node_relevance_score simZero [] "x" [] [] none = 0 :=
  ⟨rfl, claim_C7.1 simZero [] 3 "x" 0 oneSeedState rfl,
   claim_C7.2 simZero [] "x" [] [] none rfl⟩

/-! ## Claim C8 -/

/-- C8: when no stored node carries an embedding, `search` returns the single
synthetic "no information found" document with score 0.0 instead of failing. -/
theorem claim_C8 (sim : List ℚ → List ℚ → ℚ) (store : List Doc)
    (query_embedding : List ℚ) (topics : List String)
    (n_seed_results n_total_results max_traversal_depth fuel : Nat)
    (h : ∀ d ∈ store, d.embedding = none) :
    search sim store query_embedding topics n_seed_results n_total_results
      max_traversal_depth fuel =
      { documents := ["No information found in the database."], scores := [0] } := by
  have hf : store.filter (fun d => d.embedding.isSome) = [] := by
    rw [List.filter_eq_nil_iff]
    intro d hd
    simp [h d hd]
  simp [search, hf]

/-- Witness for C8 on a store whose only node has no embedding. -/
theorem claim_C8_witness :
    (∀ d ∈ noEmbStore, d.embedding = none) ∧
    search simZero noEmbStore [1] [] 5 15 3 10 =
      { documents := ["No information found in the database."], scores := [0] } :=
  ⟨by decide, claim_C8 simZero noEmbStore [1] [] 5 15 3 10 (by decide)⟩

/-! ## Claim C3 -/

/-- C3 as stated is false: it quantifies over *any* document with headings
`H1("A") H2("B") H2("C") H3("C.1")`, but the chunker emits a node only when
the accumulated body buffer is non-empty, so the document consisting of the
four headings alone produces 0 nodes, not 4. -/
theorem claim_C3_counterexample :
    chunk_content "p" [Block.heading 1 "A", Block.heading 2 "B",
      Block.heading 2 "C", Block.heading 3 "C.1"] = [] ∧
    (chunk_content "p" [Block.heading 1 "A", Block.heading 2 "B",
      Block.heading 2 "C", Block.heading 3 "C.1"]).length ≠ 4 := by
  decide

set_option maxHeartbeats 2000000 in
set_option maxRecDepth 100000 in
/-- C3 amended: for a document `H1("A") b₁ H2("B") b₂ H2("C") b₃ H3("C.1") b₄`
in which every heading is followed by a body block with non-whitespace text,
the chunker produces exactly 4 nodes with parent("B") = parent("C") = "A",
parent("C.1") = "C", children("A") = {"B","C"}, children("C") = {"C.1"}. -/
theorem claim_C3 (b1 b2 b3 b4 : String)
    (h1 : (pyStrip b1).data.isEmpty = false) (h2 : (pyStrip b2).data.isEmpty = false)
    (h3 : (pyStrip b3).data.isEmpty = false) (h4 : (pyStrip b4).data.isEmpty = false) :
    (chunk_content "p" [Block.heading 1 "A", Block.body b1, Block.heading 2 "B",
      Block.body b2, Block.heading 2 "C", Block.body b3, Block.heading 3 "C.1",
      Block.body b4]).map (fun c => (c.header, c.parent_chunk_id, c.children)) =
      [("A", none, ["p-chunk-1", "p-chunk-2"]),
       ("B", some "p-chunk-0", []),
       ("C", some "p-chunk-0", ["p-chunk-3"]),
       ("C.1", some "p-chunk-2", [])] := by
  have e1 : stepBlock "p" ⟨List.replicate 6 none, none, [], []⟩ (Block.heading 1 "A") =
      ⟨[some ⟨"A", 0⟩, none, none, none, none, none],
       some ⟨"A", 1, none, none, [], 0⟩, [], []⟩ := by decide
  have e2 : stepBlock "p"
      ⟨[some ⟨"A", 0⟩, none, none, none, none, none],
       some ⟨"A", 1, none, none, [], 0⟩, [], []⟩ (Block.body b1) =
      ⟨[some ⟨"A", 0⟩, none, none, none, none, none],
       some ⟨"A", 1, none, none, [], 0⟩, [b1], []⟩ :=
    (stepBlock_body "p" _ b1 _ rfl h1).trans rfl
  have e3 : stepBlock "p"
      ⟨[some ⟨"A", 0⟩, none, none, none, none, none],
       some ⟨"A", 1, none, none, [], 0⟩, [b1], []⟩ (Block.heading 2 "B") =
      ⟨[some ⟨"A", 0⟩, some ⟨"B", 1⟩, none, none, none, none],
       some ⟨"B", 2, some "p-chunk-0", some "A", [⟨1, "A", "p-chunk-0"⟩], 1⟩, [],
       [closeChunk ⟨"A", 1, none, none, [], 0⟩ [b1]]⟩ := rfl
  have e4 : stepBlock "p"
      ⟨[some ⟨"A", 0⟩, some ⟨"B", 1⟩, none, none, none, none],
       some ⟨"B", 2, some "p-chunk-0", some "A", [⟨1, "A", "p-chunk-0"⟩], 1⟩, [],
       [closeChunk ⟨"A", 1, none, none, [], 0⟩ [b1]]⟩ (Block.body b2) =
      ⟨[some ⟨"A", 0⟩, some ⟨"B", 1⟩, none, none, none, none],
       some ⟨"B", 2, some "p-chunk-0", some "A", [⟨1, "A", "p-chunk-0"⟩], 1⟩, [b2],
       [closeChunk ⟨"A", 1, none, none, [], 0⟩ [b1]]⟩ :=
    (stepBlock_body "p" _ b2 _ rfl h2).trans rfl
  have e5 : stepBlock "p"
      ⟨[some ⟨"A", 0⟩, some ⟨"B", 1⟩, none, none, none, none],
       some ⟨"B", 2, some "p-chunk-0", some "A", [⟨1, "A", "p-chunk-0"⟩], 1⟩, [b2],
       [closeChunk ⟨"A", 1, none, none, [], 0⟩ [b1]]⟩ (Block.heading 2 "C") =
      ⟨[some ⟨"A", 0⟩, some ⟨"C", 2⟩, none, none, none, none],
       some ⟨"C", 2, some "p-chunk-0", some "A", [⟨1, "A", "p-chunk-0"⟩], 1⟩, [],
       [closeChunk ⟨"A", 1, none, none, [], 0⟩ [b1],
        closeChunk ⟨"B", 2, some "p-chunk-0", some "A", [⟨1, "A", "p-chunk-0"⟩], 1⟩ [b2]]⟩ :=
    rfl
  have e6 : stepBlock "p"
      ⟨[some ⟨"A", 0⟩, some ⟨"C", 2⟩, none, none, none, none],
       some ⟨"C", 2, some "p-chunk-0", some "A", [⟨1, "A", "p-chunk-0"⟩], 1⟩, [],
       [closeChunk ⟨"A", 1, none, none, [], 0⟩ [b1],
        closeChunk ⟨"B", 2, some "p-chunk-0", some "A", [⟨1, "A", "p-chunk-0"⟩], 1⟩ [b2]]⟩
      (Block.body b3) =
      ⟨[some ⟨"A", 0⟩, some ⟨"C", 2⟩, none, none, none, none],
       some ⟨"C", 2, some "p-chunk-0", some "A", [⟨1, "A", "p-chunk-0"⟩], 1⟩, [b3],
       [closeChunk ⟨"A", 1, none, none, [], 0⟩ [b1],
        closeChunk ⟨"B", 2, some "p-chunk-0", some "A", [⟨1, "A", "p-chunk-0"⟩], 1⟩ [b2]]⟩ :=
    (stepBlock_body "p" _ b3 _ rfl h3).trans rfl
  have e7 : stepBlock "p"
      ⟨[some ⟨"A", 0⟩, some ⟨"C", 2⟩, none, none, none, none],
       some ⟨"C", 2, some "p-chunk-0", some "A", [⟨1, "A", "p-chunk-0"⟩], 1⟩, [b3],
       [closeChunk ⟨"A", 1, none, none, [], 0⟩ [b1],
        closeChunk ⟨"B", 2, some "p-chunk-0", some "A", [⟨1, "A", "p-chunk-0"⟩], 1⟩ [b2]]⟩
      (Block.heading 3 "C.1") =
      ⟨[some ⟨"A", 0⟩, some ⟨"C", 2⟩, some ⟨"C.1", 3⟩, none, none, none],
       some ⟨"C.1", 3, some "p-chunk-2", some "C",
         [⟨1, "A", "p-chunk-0"⟩, ⟨2, "C", "p-chunk-2"⟩], 2⟩, [],
       [closeChunk ⟨"A", 1, none, none, [], 0⟩ [b1],
        closeChunk ⟨"B", 2, some "p-chunk-0", some "A", [⟨1, "A", "p-chunk-0"⟩], 1⟩ [b2],
        closeChunk ⟨"C", 2, some "p-chunk-0", some "A", [⟨1, "A", "p-chunk-0"⟩], 1⟩ [b3]]⟩ :=
    rfl
  have e8 : stepBlock "p"
      ⟨[some ⟨"A", 0⟩, some ⟨"C", 2⟩, some ⟨"C.1", 3⟩, none, none, none],
       some ⟨"C.1", 3, some "p-chunk-2", some "C",
         [⟨1, "A", "p-chunk-0"⟩, ⟨2, "C", "p-chunk-2"⟩], 2⟩, [],
       [closeChunk ⟨"A", 1, none, none, [], 0⟩ [b1],
        closeChunk ⟨"B", 2, some "p-chunk-0", some "A", [⟨1, "A", "p-chunk-0"⟩], 1⟩ [b2],
        closeChunk ⟨"C", 2, some "p-chunk-0", some "A", [⟨1, "A", "p-chunk-0"⟩], 1⟩ [b3]]⟩
      (Block.body b4) =
      ⟨[some ⟨"A", 0⟩, some ⟨"C", 2⟩, some ⟨"C.1", 3⟩, none, none, none],
       some ⟨"C.1", 3, some "p-chunk-2", some "C",
         [⟨1, "A", "p-chunk-0"⟩, ⟨2, "C", "p-chunk-2"⟩], 2⟩, [b4],
       [closeChunk ⟨"A", 1, none, none, [], 0⟩ [b1],
        closeChunk ⟨"B", 2, some "p-chunk-0", some "A", [⟨1, "A", "p-chunk-0"⟩], 1⟩ [b2],
        closeChunk ⟨"C", 2, some "p-chunk-0", some "A", [⟨1, "A", "p-chunk-0"⟩], 1⟩ [b3]]⟩ :=
    (stepBlock_body "p" _ b4 _ rfl h4).trans rfl
  show (addChildren "p" (finishChunks (List.foldl (stepBlock "p")
      ⟨List.replicate 6 none, none, [], []⟩ _))).map
      (fun c => (c.header, c.parent_chunk_id, c.children)) = _
  rw [List.foldl_cons, e1, List.foldl_cons, e2, List.foldl_cons, e3,
    List.foldl_cons, e4, List.foldl_cons, e5, List.foldl_cons, e6,
    List.foldl_cons, e7, List.foldl_cons, e8, List.foldl_nil]
  have hfin : finishChunks
      ⟨[some ⟨"A", 0⟩, some ⟨"C", 2⟩, some ⟨"C.1", 3⟩, none, none, none],
       some ⟨"C.1", 3, some "p-chunk-2", some "C",
         [⟨1, "A", "p-chunk-0"⟩, ⟨2, "C", "p-chunk-2"⟩], 2⟩, [b4],
       [closeChunk ⟨"A", 1, none, none, [], 0⟩ [b1],
        closeChunk ⟨"B", 2, some "p-chunk-0", some "A", [⟨1, "A", "p-chunk-0"⟩], 1⟩ [b2],
        closeChunk ⟨"C", 2, some "p-chunk-0", some "A", [⟨1, "A", "p-chunk-0"⟩], 1⟩ [b3]]⟩ =
      [closeChunk ⟨"A", 1, none, none, [], 0⟩ [b1],
       closeChunk ⟨"B", 2, some "p-chunk-0", some "A", [⟨1, "A", "p-chunk-0"⟩], 1⟩ [b2],
       closeChunk ⟨"C", 2, some "p-chunk-0", some "A", [⟨1, "A", "p-chunk-0"⟩], 1⟩ [b3],
       closeChunk ⟨"C.1", 3, some "p-chunk-2", some "C",
         [⟨1, "A", "p-chunk-0"⟩, ⟨2, "C", "p-chunk-2"⟩], 2⟩ [b4]] := rfl
  rw [hfin, addChildren_spec4 _ _ _ _ rfl rfl rfl rfl]
  simp [closeChunk]

/-- Witness for the amended C3 with bodies `"w" "x" "y" "z"`. -/
theorem claim_C3_witness :
    (pyStrip "w").data.isEmpty = false ∧ (pyStrip "x").data.isEmpty = false ∧
    (pyStrip "y").data.isEmpty = false ∧ (pyStrip "z").data.isEmpty = false ∧
    (chunk_content "p" [Block.heading 1 "A", Block.body "w", Block.heading 2 "B",
      Block.body "x", Block.heading 2 "C", Block.body "y", Block.heading 3 "C.1",
      Block.body "z"]).map (fun c => (c.header, c.parent_chunk_id, c.children)) =
      [("A", none, ["p-chunk-1", "p-chunk-2"]),
       ("B", some "p-chunk-0", []),
       ("C", some "p-chunk-0", ["p-chunk-3"]),
       ("C.1", some "p-chunk-2", [])] :=
  ⟨rfl, rfl, rfl, rfl, claim_C3 "w" "x" "y" "z" rfl rfl rfl rfl⟩

/-! ## Claim C4 -/

theorem foldl_induct {α β : Type} (P : β → Prop) (f : β → α → β) :
    ∀ l : List α, (∀ s a, a ∈ l → P s → P (f s a)) → ∀ s, P s → P (l.foldl f s) := by
  intro l
  induction l with
  | nil => intro _ s hs; exact hs
  | cons a t ih =>
      intro h s hs
      exact ih (fun s' a' ha' => h s' a' (List.mem_cons_of_mem a ha'))
        (f s a) (h s a (List.mem_cons_self a t) hs)

theorem listModify_length (l : List Chunk) (i : Nat) (f : Chunk → Chunk) :
    (listModify l i f).length = l.length := by
  simp [listModify]

theorem addChildren_length (pid : String) (cs : List Chunk) :
    (addChildren pid cs).length = cs.length := by
  unfold addChildren
  refine foldl_induct (fun acc => acc.length = cs.length) _ cs.enum ?_ cs rfl
  intro s p _ hs
  cases hp : p.2.parent_chunk_id with
  | none => simpa [hp] using hs
  | some par =>
      simp only [hp]
      cases hf : (((List.range cs.length).map (fun i => (chunkIdOf pid i, i))).find?
          (fun e => e.1 == par)) with
      | none => simpa using hs
      | some e => simpa [listModify_length] using hs

theorem hasBodyLead_heading (l : Nat) (t : String) (r : List Block) :
    hasBodyLead (Block.heading l t :: r) = false := rfl

theorem hasBodyLead_body (t : String) (r : List Block) :
    hasBodyLead (Block.body t :: r) =
      (!(pyStrip t).data.isEmpty || hasBodyLead r) := rfl

/-- Loop invariant behind C4: the number of chunks ultimately produced from
an intermediate state is the chunks already closed, plus one for the open
chunk if its buffer is or will become non-empty before the next heading,
plus one per later heading with non-empty body. -/
theorem chunkCount_loop (pid : String) :
    ∀ (blocks : List Block) (st : ChunkState),
      (finishChunks (blocks.foldl (stepBlock pid) st)).length =
        st.chunks.length + openContrib st blocks + headingsWithBody blocks := by
  intro blocks
  induction blocks with
  | nil =>
      intro st
      simp only [List.foldl_nil, headingsWithBody, finishChunks, openContrib]
      cases hc : st.current with
      | none => rfl
      | some oc =>
          by_cases hb : st.buf.isEmpty <;>
            simp [hb, hasBodyLead]
  | cons b rest ih =>
      intro st
      rw [List.foldl_cons, ih (stepBlock pid st b)]
      cases b with
      | body t =>
          cases hc : st.current with
          | none =>
              simp [stepBlock, hc, openContrib, headingsWithBody]
          | some oc =>
              by_cases hb : (pyStrip t).data.isEmpty
              · simp [stepBlock, hc, hb, openContrib, headingsWithBody,
                  hasBodyLead_body]
              · have hstep : stepBlock pid st (Block.body t) =
                    { st with buf := st.buf ++ [t] } :=
                  stepBlock_body pid st t oc hc (Bool.eq_false_iff.mpr hb)
                rw [hstep]
                simp [openContrib, headingsWithBody, hasBodyLead_body, hb]
      | heading lvl txt =>
          cases hc : st.current with
          | none =>
              simp [stepBlock, hc, openContrib, headingsWithBody,
                hasBodyLead_heading, List.isEmpty_nil, Bool.not_true,
                Bool.false_or]
              omega
          | some oc =>
              by_cases hb : st.buf.isEmpty
              · simp [stepBlock, hc, hb, openContrib, headingsWithBody,
                  hasBodyLead_heading, List.isEmpty_nil, Bool.not_true,
                  Bool.false_or]
                omega
              · simp [stepBlock, hc, hb, openContrib, headingsWithBody,
                  hasBodyLead_heading, List.isEmpty_nil, Bool.not_true,
                  Bool.false_or]
                omega

/-- C4: the chunker emits no node for a heading whose accumulated body is
empty — the number of chunks equals the number of headings followed by at
least one non-whitespace body block before the next heading or the end. -/
theorem claim_C4 (pid : String) (blocks : List Block) :
    (chunk_content pid blocks).length = headingsWithBody blocks := by
  show (addChildren pid (finishChunks (blocks.foldl (stepBlock pid)
      ⟨List.replicate 6 none, none, [], []⟩))).length = headingsWithBody blocks
  rw [addChildren_length,
    chunkCount_loop pid blocks ⟨List.replicate 6 none, none, [], []⟩]
  simp [openContrib]

/-! ## Claim C5 -/

/-- C5: with seed `A`, parent `P`, child `C` and sibling `B` (via `P`),
`max_depth = 2` and a large `max_nodes`, traversal visits exactly
`{A, P, C, B}` and records `B`'s discovery path as `["seed", "sibling"]`
(the depth-1 sibling hop from `A`, not a longer path through `P`). -/
theorem claim_C5 :
    (traverse_graph simZero c5Store ["A"] 100 2 10).visited_nodes =
      ["A", "P", "C", "B"] ∧
    pathsGet (traverse_graph simZero c5Store ["A"] 100 2 10).discovery_paths "B" =
      some ["seed", "sibling"] := by
  decide

/-! ## Traversal invariants for claims C1 and C6 -/

theorem pathsSet_map_fst (ps : List (String × List String)) (k : String)
    (v : List String) :
    (pathsSet ps k v).map Prod.fst =
      if k ∈ ps.map Prod.fst then ps.map Prod.fst else ps.map Prod.fst ++ [k] := by
  unfold pathsSet
  by_cases h : ps.any (fun e => e.1 == k)
  · have hk : k ∈ ps.map Prod.fst := by
      rcases List.any_eq_true.mp h with ⟨e, he, hek⟩
      exact List.mem_map.mpr ⟨e, he, (beq_iff_eq.mp hek)⟩
    rw [if_pos h, if_pos hk, List.map_map]
    apply List.map_congr_left
    intro e he
    by_cases hek : e.1 = k
    · simp [hek]
    · simp [hek]
  · have hk : k ∉ ps.map Prod.fst := by
      intro hmem
      rcases List.mem_map.mp hmem with ⟨e, he, hek⟩
      exact h (List.any_eq_true.mpr ⟨e, he, beq_iff_eq.mpr hek⟩)
    rw [if_neg h, if_neg hk, List.map_append]
    rfl

theorem pathsSet_of_not_mem (ps : List (String × List String)) (k : String)
    (v : List String) (h : k ∉ ps.map Prod.fst) :
    pathsSet ps k v = ps ++ [(k, v)] := by
  unfold pathsSet
  rw [if_neg]
  intro ha
  rcases List.any_eq_true.mp ha with ⟨e, he, hek⟩
  exact h (List.mem_map.mpr ⟨e, he, beq_iff_eq.mp hek⟩)

theorem hopCount_append (ps : List (String × List String)) (k : String)
    (v : List String) (l : String) :
    hopCount (ps ++ [(k, v)]) l =
      hopCount ps l + (if v.getLast? = some l then 1 else 0) := by
  unfold hopCount
  rw [List.filter_append, List.length_append]
  by_cases h : v.getLast? = some l <;> simp [h]

/-- `Grows store st st'`: the traversal state `st'` arises from `st` by
well-formed additions: it satisfies the invariant, its visited list extends
`st`'s, and every visited id is an old one or one the snapshot mentions. -/
def Grows (store : List Doc) (st st' : TState) : Prop :=
  Inv st' ∧ (∃ r, st'.visited = st.visited ++ r) ∧
  (∀ x ∈ st'.visited, x ∈ st.visited ∨ x ∈ allIds store)

theorem Grows.refl (store : List Doc) (st : TState) (h : Inv st) :
    Grows store st st :=
  ⟨h, ⟨[], by simp⟩, fun x hx => Or.inl hx⟩

theorem Grows.trans {store : List Doc} {st1 st2 st3 : TState}
    (h12 : Grows store st1 st2) (h23 : Grows store st2 st3) :
    Grows store st1 st3 := by
  obtain ⟨_, ⟨r1, hr1⟩, hm1⟩ := h12
  obtain ⟨hi3, ⟨r2, hr2⟩, hm2⟩ := h23
  refine ⟨hi3, ⟨r1 ++ r2, by rw [hr2, hr1, List.append_assoc]⟩, ?_⟩
  intro x hx
  rcases hm2 x hx with h | h
  · exact hm1 x h
  · exact Or.inr h

theorem addNode_inv (st : TState) (cur : String) (dep : Nat) (nid : String)
    (tag : RelTag) (h : Inv st) (hn : nid ∉ st.visited) :
    Inv (addNode st cur dep nid tag) := by
  obtain ⟨hk, hnd, h1, h2, h3, h4, h5⟩ := h
  have hk' : nid ∉ st.paths.map Prod.fst := by rw [hk]; exact hn
  have hset := pathsSet_of_not_mem st.paths nid
    ((pathsGet st.paths cur).getD [] ++ [tag.label]) hk'
  have hlast : ((pathsGet st.paths cur).getD [] ++ [tag.label]).getLast? =
      some tag.label := List.getLast?_concat _
  unfold Inv addNode
  simp only [hset]
  refine ⟨?_, ?_, ?_, ?_, ?_, ?_, ?_⟩
  · rw [List.map_append, hk]
    rfl
  · simp [List.nodup_append, hnd, hn]
  all_goals
    cases tag <;>
      simp [RelTag.bump, RelTag.label, hopCount_append, hlast, h1, h2, h3, h4, h5]

theorem addNode_grows (store : List Doc) (st : TState) (cur : String) (dep : Nat)
    (nid : String) (tag : RelTag) (h : Inv st) (hn : nid ∉ st.visited)
    (hU : nid ∈ allIds store) : Grows store st (addNode st cur dep nid tag) := by
  refine ⟨addNode_inv st cur dep nid tag h hn, ⟨[nid], rfl⟩, ?_⟩
  intro x hx
  rcases List.mem_append.mp hx with h | h
  · exact Or.inl h
  · rcases List.mem_singleton.mp h with rfl
    exact Or.inr hU

theorem childrenOf_sub (store : List Doc) (p : String) :
    ∀ x ∈ childrenOf store p, x ∈ docIds store := by
  intro x hx
  unfold childrenOf at hx
  split at hx
  · simp at hx
  · rcases List.mem_map.mp hx with ⟨d, hd, rfl⟩
    exact List.mem_map.mpr ⟨d, List.mem_of_mem_filter hd, rfl⟩

theorem pageChunksOf_sub (store : List Doc) (pg : String) :
    ∀ x ∈ pageChunksOf store pg, x ∈ docIds store := by
  intro x hx
  unfold pageChunksOf at hx
  split at hx
  · simp at hx
  · rcases List.mem_map.mp hx with ⟨d, hd, rfl⟩
    exact List.mem_map.mpr ⟨d, List.mem_of_mem_filter hd, rfl⟩

theorem fold_grows {α : Type} (store : List Doc) (l : List α)
    (f : TState → α → TState)
    (hf : ∀ s a, a ∈ l → Inv s → Grows store s (f s a)) :
    ∀ st, Inv st → Grows store st (l.foldl f st) := by
  induction l with
  | nil => intro st h; exact Grows.refl store st h
  | cons a t ih =>
      intro st h
      have h1 : Grows store st (f st a) := hf st a (List.mem_cons_self a t) h
      have h2 : Grows store (f st a) (t.foldl f (f st a)) :=
        ih (fun s a' ha' => hf s a' (List.mem_cons_of_mem a ha')) (f st a) h1.1
      exact h1.trans h2

theorem parentStrategy_grows (store : List Doc) (cur : String) (dep : Nat)
    (doc : Doc) (st : TState) (hdoc : doc ∈ store) (h : Inv st) :
    Grows store st (parentStrategy cur dep doc st) := by
  unfold parentStrategy
  cases hp : optTruthy doc.parent_chunk_id with
  | none => simp only [hp]; exact Grows.refl store st h
  | some p =>
      simp only [hp]
      by_cases hv : p ∈ st.visited
      · rw [if_pos hv]; exact Grows.refl store st h
      · rw [if_neg hv]
        refine addNode_grows store st cur dep p .parent h hv ?_
        exact List.mem_append.mpr (Or.inr
          (List.mem_filterMap.mpr ⟨doc, hdoc, hp⟩))

theorem childStrategy_grows (store : List Doc) (cur : String) (dep : Nat)
    (st : TState) (h : Inv st) :
    Grows store st (childStrategy store cur dep st) := by
  refine fold_grows store (childrenOf store cur) _ ?_ st h
  intro s a ha hs
  by_cases hv : a ∈ s.visited
  · rw [if_pos hv]; exact Grows.refl store s hs
  · rw [if_neg hv]
    exact addNode_grows store s cur dep a .child hs hv
      (List.mem_append.mpr (Or.inl (childrenOf_sub store cur a ha)))

theorem siblingStrategy_grows (store : List Doc) (cur : String) (dep : Nat)
    (doc : Doc) (st : TState) (h : Inv st) :
    Grows store st (siblingStrategy store cur dep doc st) := by
  unfold siblingStrategy
  cases hp : optTruthy doc.parent_chunk_id with
  | none => simp only [hp]; exact Grows.refl store st h
  | some p =>
      simp only [hp]
      refine fold_grows store (childrenOf store p) _ ?_ st h
      intro s a ha hs
      by_cases hcur : a = cur
      · rw [if_pos hcur]; exact Grows.refl store s hs
      · rw [if_neg hcur]
        by_cases hv : a ∈ s.visited
        · rw [if_pos hv]; exact Grows.refl store s hs
        · rw [if_neg hv]
          exact addNode_grows store s cur dep a .sibling hs hv
            (List.mem_append.mpr (Or.inl (childrenOf_sub store p a ha)))

theorem sameLevelStrategy_grows (store : List Doc) (cur : String) (dep : Nat)
    (doc : Doc) (st : TState) (h : Inv st) :
    Grows store st (sameLevelStrategy store cur dep doc st) := by
  unfold sameLevelStrategy
  cases hp : optTruthy doc.page_id with
  | none => simp only [hp]; exact Grows.refl store st h
  | some pg =>
      simp only [hp]
      by_cases hl : (0 : Int) < doc.level.getD 0
      · rw [if_pos hl]
        refine fold_grows store (pageChunksOf store pg) _ ?_ st h
        intro s a ha hs
        by_cases hcur : a = cur
        · rw [if_pos hcur]; exact Grows.refl store s hs
        · rw [if_neg hcur]
          by_cases hv : a ∈ s.visited
          · rw [if_pos hv]; exact Grows.refl store s hs
          · rw [if_neg hv]
            cases hd : docMap store a with
            | none => simp only [hd]; exact Grows.refl store s hs
            | some cd =>
                simp only [hd]
                by_cases hlev : cd.level = some (doc.level.getD 0)
                · rw [if_pos hlev]
                  exact addNode_grows store s cur dep a .same_level hs hv
                    (List.mem_append.mpr (Or.inl (pageChunksOf_sub store pg a ha)))
                · rw [if_neg hlev]
                  exact Grows.refl store s hs
      · rw [if_neg hl]
        exact Grows.refl store st h

theorem insertDesc_perm (x : String × ℚ) (l : List (String × ℚ)) :
    (insertDesc x l).Perm (x :: l) := by
  induction l with
  | nil => exact List.Perm.refl _
  | cons y ys ih =>
      unfold insertDesc
      by_cases hc : x.2 ≤ y.2
      · rw [if_pos hc]
        exact (ih.cons y).trans (List.Perm.swap x y ys)
      · rw [if_neg hc]

theorem sortDesc_perm (l : List (String × ℚ)) : (sortDesc l).Perm l := by
  induction l with
  | nil => exact List.Perm.refl _
  | cons x xs ih =>
      unfold sortDesc
      exact (insertDesc_perm x (sortDesc xs)).trans (ih.cons x)

theorem semanticStrategy_grows (sim : List ℚ → List ℚ → ℚ) (store : List Doc)
    (cur : String) (dep : Nat) (doc : Doc) (st : TState)
    (hids : (docIds store).Nodup) (h : Inv st) :
    Grows store st (semanticStrategy sim store cur dep doc st) := by
  unfold semanticStrategy
  by_cases hon : st.visited.length % 3 = 0 ∧ dep < 2
  · rw [if_pos hon]
    cases he : doc.embedding with
    | none => simp only [he]; exact Grows.refl store st h
    | some emb =>
        simp only [he]
        by_cases hemp : emb.isEmpty
        · rw [if_pos hemp]; exact Grows.refl store st h
        · rw [if_neg hemp]
          set q : Doc → Bool :=
            fun d => !(st.visited.contains d.id) && d.embedding.isSome with hq
          set L := ((store.filter q).map
              (fun d => (d.id, sim emb (d.embedding.getD [])))).filter
              (fun p => decide ((0.85 : ℚ) < p.2)) with hL
          have hmemL : ∀ p ∈ L, p.1 ∉ st.visited ∧ p.1 ∈ docIds store := by
            intro p hp
            have hp1 := List.mem_filter.mp hp
            rcases List.mem_map.mp hp1.1 with ⟨d, hd, rfl⟩
            have hdq := List.mem_filter.mp hd
            have hnv : d.id ∉ st.visited := by
              have h2 := hdq.2
              rw [hq] at h2
              simp only [Bool.and_eq_true] at h2
              intro hmem
              have h3 : st.visited.contains d.id = true :=
                List.elem_eq_true_of_mem hmem
              rw [h3] at h2
              simp at h2
            exact ⟨hnv, List.mem_map.mpr ⟨d, hdq.1, rfl⟩⟩
          have hnodL : (L.map Prod.fst).Nodup := by
            have h2 : ((store.filter q).map (fun d : Doc => d.id)).Sublist
                (store.map (fun d : Doc => d.id)) :=
              (List.filter_sublist store).map _
            have h3 : ((store.filter q).map (fun d : Doc => d.id)).Nodup :=
              List.Nodup.sublist h2 hids
            have h5 : (L.map Prod.fst).Sublist
                (((store.filter q).map
                  (fun d => (d.id, sim emb (d.embedding.getD [])))).map Prod.fst) :=
              (List.filter_sublist _).map _
            have h6 : (((store.filter q).map
                (fun d => (d.id, sim emb (d.embedding.getD [])))).map Prod.fst) =
                ((store.filter q).map (fun d : Doc => d.id)) := by
              rw [List.map_map]
              rfl
            rw [h6] at h5
            exact List.Nodup.sublist h5 h3
          have hperm : (sortDesc L).Perm L := sortDesc_perm L
          have hsubT : ∀ p ∈ (sortDesc L).take 2, p ∈ L := fun p hp =>
            hperm.mem_iff.mp (List.mem_of_mem_take hp)
          have hnodT : (((sortDesc L).take 2).map Prod.fst).Nodup := by
            have hs : ((sortDesc L).map Prod.fst).Nodup :=
              ((hperm.map Prod.fst).nodup_iff).mpr hnodL
            exact List.Nodup.sublist ((List.take_sublist 2 _).map _) hs
          have hlen : ((sortDesc L).take 2).length ≤ 2 := by
            simpa using List.length_take_le 2 (sortDesc L)
          rcases hT : (sortDesc L).take 2 with _ | ⟨a, tl⟩
          · exact Grows.refl store st h
          rcases tl with _ | ⟨b, tl2⟩
          · rw [hT] at hsubT
            obtain ⟨hav, haid⟩ := hmemL a (hsubT a (by simp))
            simp only [List.foldl_cons, List.foldl_nil]
            exact addNode_grows store st cur dep a.1 .semantic h hav
              (List.mem_append.mpr (Or.inl haid))
          rcases tl2 with _ | ⟨c, tl3⟩
          · rw [hT] at hsubT hnodT
            obtain ⟨hav, haid⟩ := hmemL a (hsubT a (by simp))
            obtain ⟨hbv, hbid⟩ := hmemL b (hsubT b (by simp))
            have hab : b.1 ≠ a.1 := by
              simp only [List.map_cons, List.map_nil, List.nodup_cons,
                List.mem_cons, List.mem_singleton] at hnodT
              intro hh
              exact hnodT.1 (by simp [hh])
            have g1 : Grows store st (addNode st cur dep a.1 .semantic) :=
              addNode_grows store st cur dep a.1 .semantic h hav
                (List.mem_append.mpr (Or.inl haid))
            have hbv2 : b.1 ∉ (addNode st cur dep a.1 .semantic).visited := by
              show b.1 ∉ st.visited ++ [a.1]
              simp [hbv, hab]
            have g2 : Grows store (addNode st cur dep a.1 .semantic)
                (addNode (addNode st cur dep a.1 .semantic) cur dep b.1 .semantic) :=
              addNode_grows store _ cur dep b.1 .semantic g1.1 hbv2
                (List.mem_append.mpr (Or.inl hbid))
            simp only [List.foldl_cons, List.foldl_nil]
            exact g1.trans g2
          · exfalso
            rw [hT] at hlen
            simp at hlen
  · rw [if_neg hon]
    exact Grows.refl store st h

theorem stepNode_grows (sim : List ℚ → List ℚ → ℚ) (store : List Doc)
    (maxDepth : Nat) (cur : String) (dep : Nat) (st : TState)
    (hids : (docIds store).Nodup) (h : Inv st) :
    Grows store st (stepNode sim store maxDepth cur dep st) := by
  unfold stepNode
  by_cases hd : maxDepth ≤ dep
  · rw [if_pos hd]; exact Grows.refl store st h
  · rw [if_neg hd]
    cases hdm : docMap store cur with
    | none => simp only [hdm]; exact Grows.refl store st h
    | some doc =>
        simp only [hdm]
        have hdoc : doc ∈ store := List.mem_of_find?_eq_some hdm
        have g1 := parentStrategy_grows store cur dep doc st hdoc h
        have g2 := childStrategy_grows store cur dep _ g1.1
        have g3 := siblingStrategy_grows store cur dep doc _ g2.1
        have g4 := sameLevelStrategy_grows store cur dep doc _ g3.1
        have g5 := semanticStrategy_grows sim store cur dep doc _ hids g4.1
        exact (((g1.trans g2).trans g3).trans g4).trans g5

theorem nodup_subset_length {l₁ l₂ : List String} (h : l₁.Nodup) (hs : l₁ ⊆ l₂) :
    l₁.length ≤ l₂.length := by
  have h1 : l₁.toFinset.card = l₁.length := List.toFinset_card_of_nodup h
  have h2 : l₁.toFinset ⊆ l₂.toFinset := by
    intro a ha
    simp only [List.mem_toFinset] at ha ⊢
    exact hs ha
  have h3 := Finset.card_le_card h2
  have h4 := List.toFinset_card_le l₂
  omega

theorem traverseLoop_inv (sim : List ℚ → List ℚ → ℚ) (store : List Doc)
    (maxNodes maxDepth : Nat) (hids : (docIds store).Nodup) :
    ∀ (fuel : Nat) (st : TState), Inv st →
      Inv (traverseLoop sim store maxNodes maxDepth fuel st) := by
  intro fuel
  induction fuel with
  | zero => intro st h; exact h
  | succ fuel ih =>
      intro st h
      rcases hw : st.worklist with _ | ⟨⟨cur, dep⟩, rest⟩
      · simp only [traverseLoop, hw]; exact h
      · simp only [traverseLoop, hw]
        by_cases hlt : st.visited.length < maxNodes
        · rw [if_pos hlt]
          have hInv' : Inv { st with worklist := rest } := h
          exact ih _ (stepNode_grows sim store maxDepth cur dep _ hids hInv').1
        · rw [if_neg hlt]; exact h

theorem traverseLoop_bound (sim : List ℚ → List ℚ → ℚ) (store : List Doc)
    (maxNodes maxDepth : Nat) (hids : (docIds store).Nodup) :
    ∀ (fuel : Nat) (st : TState) (B : Nat), Inv st → st.visited.length ≤ B →
      maxNodes + (allIds store).length ≤ B →
      (traverseLoop sim store maxNodes maxDepth fuel st).visited.length ≤ B := by
  intro fuel
  induction fuel with
  | zero => intro st B _ hB _; exact hB
  | succ fuel ih =>
      intro st B h hB hA
      rcases hw : st.worklist with _ | ⟨⟨cur, dep⟩, rest⟩
      · simp only [traverseLoop, hw]; exact hB
      · simp only [traverseLoop, hw]
        by_cases hlt : st.visited.length < maxNodes
        · rw [if_pos hlt]
          have hInv' : Inv { st with worklist := rest } := h
          obtain ⟨hInv2, ⟨r, hr⟩, hsub⟩ :=
            stepNode_grows sim store maxDepth cur dep { st with worklist := rest }
              hids hInv'
          have hnodup := hInv2.2.1
          rw [hr, List.nodup_append] at hnodup
          have hrsub : r ⊆ allIds store := by
            intro x hx
            have hxv : x ∈ (stepNode sim store maxDepth cur dep
                { st with worklist := rest }).visited := by
              rw [hr]
              exact List.mem_append_right _ hx
            rcases hsub x hxv with hxin | hxa
            · exact absurd hx (hnodup.2.2 hxin)
            · exact hxa
          have hrlen : r.length ≤ (allIds store).length :=
            nodup_subset_length hnodup.2.1 hrsub
          have hst : ({ st with worklist := rest } : TState).visited.length =
              st.visited.length := rfl
          have hlen2 : (stepNode sim store maxDepth cur dep
              { st with worklist := rest }).visited.length ≤ B := by
            rw [hr, List.length_append, hst]
            omega
          exact ih _ B hInv2 hlen2 hA
        · rw [if_neg hlt]; exact hB

theorem seedVisited_nodup (seeds : List String) : (seedVisited seeds).Nodup := by
  unfold seedVisited
  refine foldl_induct (fun v => v.Nodup)
    (fun v s => if s ∈ v then v else v ++ [s]) seeds ?_ [] List.nodup_nil
  intro v s _ hv
  by_cases hm : s ∈ v
  · simpa [hm] using hv
  · simp [hm, List.nodup_append, hv]

theorem seedPaths_fst (seeds : List String) :
    (seedPaths seeds).map Prod.fst = seedVisited seeds := by
  suffices haux : ∀ (ss : List String) (ps : List (String × List String)),
      (ss.foldl (fun ps s => pathsSet ps s ["seed"]) ps).map Prod.fst =
        ss.foldl (fun v s => if s ∈ v then v else v ++ [s]) (ps.map Prod.fst) by
    simpa [seedPaths, seedVisited] using haux seeds []
  intro ss
  induction ss with
  | nil => intro ps; rfl
  | cons a t ih =>
      intro ps
      rw [List.foldl_cons, List.foldl_cons, ih, pathsSet_map_fst]

theorem seedPaths_vals (seeds : List String) :
    ∀ e ∈ seedPaths seeds, e.2 = ["seed"] := by
  suffices haux : ∀ (ss : List String) (ps : List (String × List String)),
      (∀ e ∈ ps, e.2 = ["seed"]) →
      ∀ e ∈ ss.foldl (fun ps s => pathsSet ps s ["seed"]) ps, e.2 = ["seed"] by
    exact haux seeds [] (fun e he => absurd he (List.not_mem_nil e))
  intro ss
  induction ss with
  | nil => intro ps hps; exact hps
  | cons a t ih =>
      intro ps hps
      rw [List.foldl_cons]
      refine ih (pathsSet ps a ["seed"]) ?_
      intro e he
      unfold pathsSet at he
      split at he
      · rcases List.mem_map.mp he with ⟨e', he', rfl⟩
        by_cases hc : e'.1 == a
        · simp [hc]
        · simp only [hc, if_false]
          exact hps e' he'
      · rcases List.mem_append.mp he with h | h
        · exact hps e h
        · rcases List.mem_singleton.mp h with rfl
          rfl

theorem hopCount_seeds (ps : List (String × List String)) (l : String)
    (h : ∀ e ∈ ps, e.2 = ["seed"]) (hl : l ≠ "seed") : hopCount ps l = 0 := by
  unfold hopCount
  have hf : ps.filter (fun e => e.2.getLast? == some l) = [] := by
    rw [List.filter_eq_nil_iff]
    intro e he
    rw [h e he]
    simp [Ne.symm hl]
  rw [hf]
  rfl

theorem init_inv (seeds : List String) :
    Inv ⟨seedVisited seeds, seeds.map (fun s => (s, 0)), seedPaths seeds,
      RelCounts.zero⟩ := by
  refine ⟨seedPaths_fst seeds, seedVisited_nodup seeds, ?_, ?_, ?_, ?_, ?_⟩ <;>
    exact (hopCount_seeds _ _ (seedPaths_vals seeds) (by decide)).symm

/-! ## Claim C1 (counterexample) -/

/-- C1 as stated is false: the `max_nodes` bound is only checked between
worklist iterations, so one expansion can overshoot it.  With `max_nodes = 2`
and a seed whose document has three children, the returned visited set has 4
ids. -/
theorem claim_C1_counterexample :
    ¬ (traverse_graph simZero c1Store ["A"] 2 3 10).visited_nodes.length ≤ 2 := by
  decide

/-- C1 amended: an expansion iteration starts only while `|visited| <
max_nodes`, but the iteration itself adds nodes unchecked, so the returned
visited set can overshoot `max_nodes`; for a snapshot with duplicate-free
ids it never exceeds `max(#distinct seeds, max_nodes + 2·#store)` (a final
iteration adds at most one referenced parent id per store document plus the
store ids themselves). -/
theorem claim_C1 (sim : List ℚ → List ℚ → ℚ) (store : List Doc)
    (seed_nodes : List String) (max_nodes max_depth fuel : Nat)
    (hids : (docIds store).Nodup) :
    (traverse_graph sim store seed_nodes max_nodes max_depth fuel).visited_nodes.length ≤
      max (seedVisited seed_nodes).length (max_nodes + 2 * store.length) := by
  have hloop := traverseLoop_bound sim store max_nodes max_depth hids fuel
    ⟨seedVisited seed_nodes, seed_nodes.map (fun s => (s, 0)), seedPaths seed_nodes,
      RelCounts.zero⟩
    (max (seedVisited seed_nodes).length (max_nodes + (allIds store).length))
    (init_inv seed_nodes) (le_max_left _ _) (le_max_right _ _)
  have hA : (allIds store).length ≤ 2 * store.length := by
    have hf := List.length_filterMap_le
      (fun d : Doc => optTruthy d.parent_chunk_id) store
    simp only [allIds, docIds, refIds, List.length_append, List.length_map]
    omega
  exact le_trans hloop (max_le_max (le_refl _) (by omega))

/-! ## Claim C6 (counterexample) -/

/-- C6 as stated is false: a hop recorded with label `"same_level"` is
counted under the `"semantic"` key (and there is no `"same_level"` key at
all), so the `"semantic"` count is 1 in a run whose only non-seed hop label
is `"same_level"` and in which no hop is labelled `"semantic"`. -/
theorem claim_C6_counterexample :
    pathsGet (traverse_graph simZero c6Store ["X"] 100 1 10).discovery_paths "Y" =
      some ["seed", "same_level"] ∧
    (traverse_graph simZero c6Store ["X"] 100 1 10).relationship_counts.semantic = 1 ∧
    hopCount (traverse_graph simZero c6Store ["X"] 100 1 10).discovery_paths
      "semantic" = 0 := by
  decide

/-- Witness for the amended C1 at the overshooting store. -/
theorem claim_C1_witness :
    (docIds c1Store).Nodup ∧
    (traverse_graph simZero c1Store ["A"] 2 3 10).visited_nodes.length ≤
      max (seedVisited ["A"]).length (2 + 2 * c1Store.length) :=
  ⟨by decide, claim_C1 simZero c1Store ["A"] 2 3 10 (by decide)⟩

/-- C6 amended: `relationship_counts` has keys `parent`, `child`, `sibling`,
`semantic`, `topic` and no `same_level` key; the first three count the hops
recorded with their own label, while the `semantic` key counts the hops
labelled `"same_level"` and the `topic` key counts the hops labelled
`"semantic"`. -/
theorem claim_C6 (sim : List ℚ → List ℚ → ℚ) (store : List Doc)
    (seed_nodes : List String) (max_nodes max_depth fuel : Nat)
    (hids : (docIds store).Nodup) :
    (traverse_graph sim store seed_nodes max_nodes max_depth fuel).relationship_counts.parent =
      hopCount (traverse_graph sim store seed_nodes max_nodes max_depth fuel).discovery_paths
        "parent" ∧
    (traverse_graph sim store seed_nodes max_nodes max_depth fuel).relationship_counts.child =
      hopCount (traverse_graph sim store seed_nodes max_nodes max_depth fuel).discovery_paths
        "child" ∧
    (traverse_graph sim store seed_nodes max_nodes max_depth fuel).relationship_counts.sibling =
      hopCount (traverse_graph sim store seed_nodes max_nodes max_depth fuel).discovery_paths
        "sibling" ∧
    (traverse_graph sim store seed_nodes max_nodes max_depth fuel).relationship_counts.semantic =
      hopCount (traverse_graph sim store seed_nodes max_nodes max_depth fuel).discovery_paths
        "same_level" ∧
    (traverse_graph sim store seed_nodes max_nodes max_depth fuel).relationship_counts.topic =
      hopCount (traverse_graph sim store seed_nodes max_nodes max_depth fuel).discovery_paths
        "semantic" := by
  have h := traverseLoop_inv sim store max_nodes max_depth hids fuel
    ⟨seedVisited seed_nodes, seed_nodes.map (fun s => (s, 0)), seedPaths seed_nodes,
      RelCounts.zero⟩ (init_inv seed_nodes)
  exact ⟨h.2.2.1, h.2.2.2.1, h.2.2.2.2.1, h.2.2.2.2.2.1, h.2.2.2.2.2.2⟩

/-- Witness for the amended C6 at the same-page store. -/
theorem claim_C6_witness :
    (docIds c6Store).Nodup ∧
    ((traverse_graph simZero c6Store ["X"] 100 1 10).relationship_counts.parent =
      hopCount (traverse_graph simZero c6Store ["X"] 100 1 10).discovery_paths
        "parent" ∧
    (traverse_graph simZero c6Store ["X"] 100 1 10).relationship_counts.child =
      hopCount (traverse_graph simZero c6Store ["X"] 100 1 10).discovery_paths
        "child" ∧
    (traverse_graph simZero c6Store ["X"] 100 1 10).relationship_counts.sibling =
      hopCount (traverse_graph simZero c6Store ["X"] 100 1 10).discovery_paths
        "sibling" ∧
    (traverse_graph simZero c6Store ["X"] 100 1 10).relationship_counts.semantic =
      hopCount (traverse_graph simZero c6Store ["X"] 100 1 10).discovery_paths
        "same_level" ∧
    (traverse_graph simZero c6Store ["X"] 100 1 10).relationship_counts.topic =
      hopCount (traverse_graph simZero c6Store ["X"] 100 1 10).discovery_paths
        "semantic") :=
  ⟨by decide, claim_C6 simZero c6Store ["X"] 100 1 10 (by decide)⟩

end AvosBot
